import Mathlib

/-!
Verification of the policy-scribe retrieval-and-analysis pipeline.

The pipeline (chunking in `process-document`, ranking / context assembly /
answer synthesis / exchange recording in `analyze-document`) is embedded
shallowly: strings are `List Char`, JavaScript's stable `Array.prototype.sort`
is `List.mergeSort`, the reasoning service and the storage collaborator are
oracles whose outcomes are explicit inputs to the handler function.
-/

namespace PolicyScribe

/-- `s.toLowerCase()` on a string modelled as a character list. -/
def lower (s : List Char) : List Char := s.map Char.toLower

/-- `hay.includes(needle)`: substring containment test. -/
def containsSub (hay needle : List Char) : Bool :=
  match hay with
  | [] => needle.isEmpty
  | _ :: t => needle.isPrefixOf hay || containsSub t needle

/-- A document chunk as stored inline on a document: its text and its
zero-based position (`{ text, index }` in `process-document`). -/
structure Chunk where
  text : List Char
  index : Nat
deriving DecidableEq, Repr

/-- The chunking loop of `process-document`:
`for (let i = 0; i < text.length; i += chunkSize) push({text: substring(i, i+chunkSize), index: chunks.length})`,
written with explicit fuel (the loop runs at most `text.length` times once
`chunkSize > 0`). -/
def chunkAux (chunkSize : Nat) : Nat → List Char → Nat → List Chunk
  | _, [], _ => []
  | 0, _ :: _, _ => []
  | fuel + 1, c :: t, idx =>
    ⟨(c :: t).take chunkSize, idx⟩ :: chunkAux chunkSize fuel ((c :: t).drop chunkSize) (idx + 1)

/-- The Chunker: split document text into chunks of `chunkSize` characters
(the source fixes `chunkSize = 1000`). -/
def chunkText (chunkSize : Nat) (text : List Char) : List Chunk :=
  chunkAux chunkSize text.length text 0

/-- A chunk augmented with its relevance score, as built by the `.map` in
`analyze-document` (`{...chunk, score}`). -/
structure ScoredChunk where
  text : List Char
  index : Nat
  score : Nat
deriving DecidableEq, Repr

/-- `score: chunk.text.toLowerCase().includes(questionLower) ? 1 : 0`. -/
def scoreChunk (questionLower : List Char) (c : Chunk) : ScoredChunk :=
  ⟨c.text, c.index, if containsSub (lower c.text) questionLower then 1 else 0⟩

/-- The Relevance Ranker (`relevantChunks` in `analyze-document`): score every
chunk, drop score-0 chunks, stable-sort by descending score, keep the first 3.
JavaScript's `Array.prototype.sort` is stable, hence `List.mergeSort`. -/
def rankChunks (chunks : List Chunk) (question : List Char) : List ScoredChunk :=
  let questionLower := lower question
  ((((chunks.map (scoreChunk questionLower)).filter
      (fun c => c.score > 0)).mergeSort
      (fun a b => b.score ≤ a.score)).take 3)

/-- `"\n\n"`, the paragraph separator used by the Context Assembler. -/
def paragraphSep : List Char := "\n\n".toList

/-- The Context Assembler: `relevantChunks.map(c => c.text).join("\n\n")`. -/
def assembleContext (ranked : List ScoredChunk) : List Char :=
  List.intercalate paragraphSep (ranked.map (fun c => c.text))

/-- Whether a chunk survives ranking: its lowercased text contains the
lowercased question. -/
def matchesQuestion (question : List Char) (c : Chunk) : Bool :=
  containsSub (lower c.text) (lower question)

/-- JSON values, as produced by a successful `JSON.parse`. -/
inductive Json where
  | null
  | bool (b : Bool)
  | num (n : Int)
  | str (s : List Char)
  | arr (elems : List Json)
  | obj (fields : List (List Char × Json))

/-- Preview truncation bound in the fallback branch: `substring(0, 200)`. -/
def previewLen : Nat := 200

/-- The `"..."` appended to each truncated evidence preview. -/
def ellipsis : List Char := "...".toList

/-- The fixed reasoning note of the fallback branch. -/
def fallbackReasoning : List Char := "Analysis based on document context".toList

/-- The synthesized result: either the parsed JSON accepted as-is, or the
fallback record built in the `catch` branch. -/
inductive SynthResult where
  | structured (j : Json)
  | fallback (answer : List Char) (evidence : List (List Char))
      (confidenceScore : Nat) (reasoning : List Char)

/-- The `try/catch` around `JSON.parse(aiResponse)` in `analyze-document`:
a successfully parsed body is accepted as-is; a parse failure synthesizes the
fallback record from the raw text and the ranked chunks. -/
def synthesize (parsed : Option Json) (aiResponse : List Char)
    (relevantChunks : List ScoredChunk) : SynthResult :=
  match parsed with
  | some j => .structured j
  | none =>
    .fallback aiResponse
      (relevantChunks.map (fun c => c.text.take previewLen ++ ellipsis))
      75 fallbackReasoning

/-- Outcome of the `fetch` to the reasoning gateway, treated as an oracle:
either the fetch rejects (network failure / timeout), or it yields a response
with a status code, the extracted `choices[0].message.content` string, and the
outcome of `JSON.parse` on that string. -/
inductive ServiceOutcome where
  | unreachable (errMsg : List Char)
  | response (status : Nat) (aiResponse : List Char) (parsed : Option Json)

/-- Outcome of the `queries` insert, treated as an oracle. -/
inductive InsertOutcome where
  | ok
  | failed
deriving DecidableEq, Repr

/-- `response.ok` per the Fetch specification: status in 200–299. -/
def statusOk (status : Nat) : Bool := 200 ≤ status && status ≤ 299

/-- The error message thrown when `response.ok` is false. -/
def aiAnalysisFailedMsg : List Char := "AI analysis failed".toList

/-- Body of the HTTP response returned by the handler: the synthesized result
on success, `{ error }` from the outer catch otherwise. -/
inductive ResponseBody where
  | success (result : SynthResult)
  | error (msg : List Char)

/-- Observable outcome of one `analyze-document` invocation: HTTP status,
response body, and whether an Exchange row was persisted in `queries`. -/
structure HandlerOutput where
  status : Nat
  body : ResponseBody
  exchangePersisted : Bool

/-- The user message sent to the reasoning service:
`Context from document:\n${context}\n\nQuestion: ${question}`. -/
def requestMessage (context question : List Char) : List Char :=
  "Context from document:\n".toList ++ context ++ "\n\nQuestion: ".toList ++ question

/-- Whether the synthesized result is JSON `null`. Building the `queries`
insert payload reads `result.answer`: on JavaScript's `null` that property
read throws a `TypeError`, while on any other parsed value it merely yields
`undefined` fields, so `null` is the one parsed value whose acceptance
crashes the handler. -/
def resultIsNull : SynthResult → Bool
  | .structured Json.null => true
  | _ => false

/-- The `TypeError` message raised when `result.answer` is read off a null
`result`, surfaced by the outer catch. -/
def nullDerefErrorMsg : List Char :=
  "Cannot read properties of null".toList

/-- The `analyze-document` handler from the point where the document's chunks
are in hand: rank, assemble, call the service (oracle), synthesize, insert the
Exchange, and respond. Service failure is thrown and caught by the outer
handler as a 500 before the insert runs. Building the insert payload reads
`result.answer`, which throws when the body parsed to JSON `null` — the outer
catch then returns a 500 and no row is inserted. Otherwise the insert runs
and its error object is discarded by the code. -/
def analyzeDocument (chunks : List Chunk) (question : List Char)
    (service : ServiceOutcome) (insertRes : InsertOutcome) : HandlerOutput :=
  let relevantChunks := rankChunks chunks question
  match service with
  | .unreachable errMsg => ⟨500, .error errMsg, false⟩
  | .response status aiResponse parsed =>
    if statusOk status then
      let result := synthesize parsed aiResponse relevantChunks
      if resultIsNull result then
        ⟨500, .error nullDerefErrorMsg, false⟩
      else
        ⟨200, .success result, insertRes = .ok⟩
    else
      ⟨500, .error aiAnalysisFailedMsg, false⟩

/-- Field lookup on a parsed JSON object. -/
def lookupField (fields : List (List Char × Json)) (name : List Char) : Option Json :=
  match fields with
  | [] => none
  | (k, v) :: rest => if k = name then some v else lookupField rest name

/-- Is the JSON value a string? -/
def isStr : Json → Bool
  | .str _ => true
  | _ => false

/-- Is the JSON value an array of strings? -/
def isStrArray : Json → Bool
  | .arr elems => elems.all isStr
  | _ => false

/-- Is the JSON value an integer in 0–100? -/
def isConfidenceScore : Json → Bool
  | .num n => 0 ≤ n && n ≤ 100
  | _ => false

/-- The Structured shape demanded by spec §4.4, stated from the spec's words
for comparison with the code's acceptance condition: an object with fields
`answer` (string), `evidence` (sequence of strings), `confidence_score`
(integer 0–100) and `reasoning` (string). -/
def specStructuredShape (j : Json) : Bool :=
  match j with
  | .obj fields =>
    (match lookupField fields "answer".toList with
     | some v => isStr v
     | none => false) &&
    (match lookupField fields "evidence".toList with
     | some v => isStrArray v
     | none => false) &&
    (match lookupField fields "confidence_score".toList with
     | some v => isConfidenceScore v
     | none => false) &&
    (match lookupField fields "reasoning".toList with
     | some v => isStr v
     | none => false)
  | _ => false

/-- JavaScript `String.prototype.trim` on the model: strip whitespace from
both ends. -/
def trimStr (s : List Char) : List Char :=
  ((s.dropWhile Char.isWhitespace).reverse.dropWhile Char.isWhitespace).reverse

/-- `handleSubmit` in the query interface: `if (!question.trim()) return;` —
the analyze invocation happens exactly when the trimmed question is
non-empty. Returns whether `analyze-document` is invoked. -/
def handleSubmitInvokes (question : List Char) : Bool :=
  !(trimStr question).isEmpty

/-- The submit button's `disabled={isLoading || !question.trim()}`. -/
def submitDisabled (isLoading : Bool) (question : List Char) : Bool :=
  isLoading || (trimStr question).isEmpty

/-! ### Chunker lemmas -/

theorem chunkAux_nil (S fuel idx : Nat) : chunkAux S fuel [] idx = [] := by
  cases fuel <;> rfl

theorem chunkAux_join (S : Nat) (hS : 0 < S) :
    ∀ fuel (t : List Char) (idx : Nat), t.length ≤ fuel →
      ((chunkAux S fuel t idx).map (fun c => c.text)).flatten = t := by
  intro fuel
  induction fuel with
  | zero =>
    intro t idx ht
    have : t = [] := List.eq_nil_of_length_eq_zero (Nat.le_zero.mp ht)
    subst this
    simp [chunkAux_nil]
  | succ n ih =>
    intro t idx ht
    cases t with
    | nil => simp [chunkAux_nil]
    | cons c t' =>
      have hdrop : ((c :: t').drop S).length ≤ n := by
        simp only [List.length_drop, List.length_cons] at ht ⊢
        omega
      simp only [chunkAux, List.map_cons, List.flatten_cons, ih ((c :: t').drop S) (idx + 1) hdrop]
      exact List.take_append_drop S (c :: t')

theorem chunkAux_length (S : Nat) (hS : 0 < S) :
    ∀ fuel (t : List Char) (idx : Nat), t.length ≤ fuel →
      (chunkAux S fuel t idx).length = (t.length + S - 1) / S := by
  intro fuel
  induction fuel with
  | zero =>
    intro t idx ht
    have : t = [] := List.eq_nil_of_length_eq_zero (Nat.le_zero.mp ht)
    subst this
    simp only [chunkAux_nil, List.length_nil]
    rw [Nat.div_eq_of_lt (by omega)]
  | succ n ih =>
    intro t idx ht
    cases t with
    | nil =>
      simp only [chunkAux_nil, List.length_nil]
      rw [Nat.div_eq_of_lt (by omega)]
    | cons c t' =>
      have hdrop : ((c :: t').drop S).length ≤ n := by
        simp only [List.length_drop, List.length_cons] at ht ⊢
        omega
      simp only [chunkAux, List.length_cons, ih ((c :: t').drop S) (idx + 1) hdrop,
        List.length_drop]
      rcases le_or_lt (t'.length + 1) S with hle | hlt
      · have e1 : t'.length + 1 - S + S - 1 = S - 1 := by omega
        rw [e1, Nat.div_eq_of_lt (by omega)]
        have hone : (t'.length + 1 + S - 1) / S = 1 := by
          apply Nat.div_eq_of_lt_le <;> omega
        rw [hone]
      · have e2 : t'.length + 1 + S - 1 = (t'.length + 1 - S + S - 1) + S := by omega
        rw [e2, Nat.add_div_right _ hS]

theorem chunkAux_sizes (S : Nat) (hS : 0 < S) :
    ∀ fuel (t : List Char) (idx : Nat), t.length ≤ fuel →
      ∀ c ∈ (chunkAux S fuel t idx).dropLast, c.text.length = S := by
  intro fuel
  induction fuel with
  | zero =>
    intro t idx ht
    have : t = [] := List.eq_nil_of_length_eq_zero (Nat.le_zero.mp ht)
    subst this
    simp [chunkAux_nil]
  | succ n ih =>
    intro t idx ht
    cases t with
    | nil => simp [chunkAux_nil]
    | cons c t' =>
      have hdrop : ((c :: t').drop S).length ≤ n := by
        simp only [List.length_drop, List.length_cons] at ht ⊢
        omega
      simp only [chunkAux]
      cases hrest : chunkAux S n ((c :: t').drop S) (idx + 1) with
      | nil => simp
      | cons r rs =>
        have hne : (c :: t').drop S ≠ [] := by
          intro h0
          rw [h0, chunkAux_nil] at hrest
          exact List.noConfusion hrest
        have hlen : S < (c :: t').length := by
          by_contra hcon
          exact hne (List.drop_eq_nil_of_le (by omega))
        intro x hx
        rw [List.dropLast_cons_of_ne_nil (List.noConfusion : (r :: rs) ≠ [])] at hx
        rcases List.mem_cons.mp hx with hx | hx
        · subst hx
          simp only [List.length_take]
          omega
        · have := ih ((c :: t').drop S) (idx + 1) hdrop
          rw [hrest] at this
          exact this x hx

theorem chunkAux_index (S : Nat) (hS : 0 < S) :
    ∀ fuel (t : List Char) (idx : Nat), t.length ≤ fuel →
      ∀ i (h : i < (chunkAux S fuel t idx).length),
        ((chunkAux S fuel t idx).get ⟨i, h⟩).index = idx + i := by
  intro fuel
  induction fuel with
  | zero =>
    intro t idx ht
    have : t = [] := List.eq_nil_of_length_eq_zero (Nat.le_zero.mp ht)
    subst this
    simp [chunkAux_nil]
  | succ n ih =>
    intro t idx ht
    cases t with
    | nil => simp [chunkAux_nil]
    | cons c t' =>
      have hdrop : ((c :: t').drop S).length ≤ n := by
        simp only [List.length_drop, List.length_cons] at ht ⊢
        omega
      intro i h
      cases i with
      | zero => simp [chunkAux]
      | succ j =>
        simp only [chunkAux, List.length_cons] at h ⊢
        have hj : j < (chunkAux S n ((c :: t').drop S) (idx + 1)).length := by
          exact Nat.lt_of_succ_lt_succ h
        simp only [List.get_cons_succ]
        rw [ih ((c :: t').drop S) (idx + 1) hdrop j hj]
        omega

/-- C7: for every document text `T` and chunk size `S > 0`, the Chunker
produces `⌈len(T)/S⌉` chunks whose concatenation in index order reproduces `T`
exactly, every chunk except possibly the last has length exactly `S`, the
`i`-th chunk carries index `i`, and the empty string yields the empty chunk
sequence. -/
theorem chunker_correct (S : Nat) (T : List Char) (hS : 0 < S) :
    ((chunkText S T).map (fun c => c.text)).flatten = T
    ∧ (chunkText S T).length = (T.length + S - 1) / S
    ∧ (∀ c ∈ (chunkText S T).dropLast, c.text.length = S)
    ∧ (∀ i (h : i < (chunkText S T).length), ((chunkText S T).get ⟨i, h⟩).index = i)
    ∧ chunkText S [] = [] := by
  refine ⟨chunkAux_join S hS T.length T 0 le_rfl,
    chunkAux_length S hS T.length T 0 le_rfl,
    chunkAux_sizes S hS T.length T 0 le_rfl,
    ?_, rfl⟩
  intro i h
  have := chunkAux_index S hS T.length T 0 le_rfl i h
  simpa using this

/-- Witness for `chunker_correct` at `S = 3`, `T = "abcdefgh"`. -/
theorem chunker_correct_witness :
    0 < 3
    ∧ (((chunkText 3 "abcdefgh".toList).map (fun c => c.text)).flatten = "abcdefgh".toList
      ∧ (chunkText 3 "abcdefgh".toList).length = ("abcdefgh".toList.length + 3 - 1) / 3
      ∧ (∀ c ∈ (chunkText 3 "abcdefgh".toList).dropLast, c.text.length = 3)
      ∧ (∀ i (h : i < (chunkText 3 "abcdefgh".toList).length),
          ((chunkText 3 "abcdefgh".toList).get ⟨i, h⟩).index = i)
      ∧ chunkText 3 [] = []) :=
  ⟨by decide, chunker_correct 3 "abcdefgh".toList (by decide)⟩

/-! ### Ranker lemmas -/

theorem score_filter_eq (chunks : List Chunk) (ql : List Char) :
    (chunks.map (scoreChunk ql)).filter (fun c => c.score > 0)
      = (chunks.filter (fun c => containsSub (lower c.text) ql)).map
          (fun c => ⟨c.text, c.index, 1⟩) := by
  induction chunks with
  | nil => rfl
  | cons a t ih =>
    by_cases hc : containsSub (lower a.text) ql
    · simp [scoreChunk, hc, ih]
    · simp [scoreChunk, hc, ih]

theorem mergeSort_const_score (l : List ScoredChunk) (h : ∀ c ∈ l, c.score = 1) :
    l.mergeSort (fun a b => b.score ≤ a.score) = l := by
  apply List.mergeSort_of_sorted
  induction l with
  | nil => exact List.Pairwise.nil
  | cons a t ih =>
    refine List.Pairwise.cons ?_ (ih ?_)
    · intro b hb
      have ha := h a (List.mem_cons_self a t)
      have hbs := h b (List.mem_cons_of_mem a hb)
      simp [ha, hbs]
    · intro c hc
      exact h c (List.mem_cons_of_mem a hc)

/-- The ranker, characterized: keep the first 3 matching chunks in document
order, each with score 1. Shared helper for the claim theorems below. -/
theorem rankChunks_characterization (chunks : List Chunk) (question : List Char) :
    rankChunks chunks question
      = ((chunks.filter (matchesQuestion question)).take 3).map
          (fun c => ⟨c.text, c.index, 1⟩) := by
  simp only [rankChunks, matchesQuestion]
  rw [score_filter_eq]
  rw [mergeSort_const_score]
  · rw [List.map_take]
    rfl
  · intro c hc
    rcases List.mem_map.mp hc with ⟨d, _, hd⟩
    rw [← hd]

/-- C1: the Relevance Ranker returns exactly the chunks whose lowercased text
contains the lowercased question, at most 3 of them, in document order (each
carrying score 1); when the input chunks have strictly ascending indices, so
does the output. -/
theorem ranker_correct (chunks : List Chunk) (question : List Char) :
    rankChunks chunks question
      = ((chunks.filter (matchesQuestion question)).take 3).map
          (fun c => ⟨c.text, c.index, 1⟩)
    ∧ (List.Pairwise (fun a b => a.index < b.index) chunks →
        List.Pairwise (fun a b : ScoredChunk => a.index < b.index)
          (rankChunks chunks question)) := by
  have hmain := rankChunks_characterization chunks question
  refine ⟨hmain, ?_⟩
  intro hp
  rw [hmain]
  apply List.pairwise_map.mpr
  have hsub : List.Sublist ((chunks.filter (matchesQuestion question)).take 3) chunks :=
    (List.take_sublist _ _).trans (List.filter_sublist _)
  exact (hp.sublist hsub).imp (fun h => h)

/-- Demo chunk list used by concrete witnesses. -/
def demoChunks : List Chunk :=
  [⟨"Knee surgery is covered under plan B".toList, 0⟩,
   ⟨"Dental is excluded".toList, 1⟩]

/-- Demo question used by concrete witnesses. -/
def demoQuestion : List Char := "knee surgery".toList

/-- Witness for `ranker_correct` on the demo document and question. -/
theorem ranker_correct_witness :
    rankChunks demoChunks demoQuestion
      = ((demoChunks.filter (matchesQuestion demoQuestion)).take 3).map
          (fun c => ⟨c.text, c.index, 1⟩)
    ∧ List.Pairwise (fun a b : ScoredChunk => a.index < b.index)
        (rankChunks demoChunks demoQuestion) :=
  ⟨(ranker_correct demoChunks demoQuestion).1,
   (ranker_correct demoChunks demoQuestion).2 (by decide)⟩

/-- C9: ranking is a deterministic function of its inputs — two invocations
on the same document chunks and question return the identical ordered
result. -/
theorem ranker_deterministic (chunks chunks' : List Chunk) (q q' : List Char)
    (h1 : chunks = chunks') (h2 : q = q') :
    rankChunks chunks q = rankChunks chunks' q' := by
  subst h1
  subst h2
  rfl

/-- Witness for `ranker_deterministic` on the demo document and question. -/
theorem ranker_deterministic_witness :
    demoChunks = demoChunks ∧ demoQuestion = demoQuestion
    ∧ rankChunks demoChunks demoQuestion = rankChunks demoChunks demoQuestion :=
  ⟨rfl, rfl,
   ranker_deterministic demoChunks demoChunks demoQuestion demoQuestion rfl rfl⟩

/-! ### Context Assembler -/

/-- The spec's wording of the Context Assembler: the concatenation of the
texts in rank order, separated by the delimiter. -/
def joinWithSep (sep : List Char) : List (List Char) → List Char
  | [] => []
  | [x] => x
  | x :: y :: xs => x ++ sep ++ joinWithSep sep (y :: xs)

/-- C5: the Context Assembler produces exactly the concatenation of the
chunks' texts in rank order separated by the paragraph delimiter, and the
empty sequence yields the empty string. -/
theorem assembler_correct (ranked : List ScoredChunk) :
    assembleContext ranked = joinWithSep paragraphSep (ranked.map (fun c => c.text))
    ∧ assembleContext [] = [] := by
  refine ⟨?_, rfl⟩
  unfold assembleContext
  generalize (ranked.map fun c => c.text) = l
  induction l with
  | nil => rfl
  | cons x xs ih =>
    cases xs with
    | nil => simp [List.intercalate, joinWithSep]
    | cons y ys =>
      simp only [List.intercalate, List.intersperse_cons₂, List.flatten_cons,
        joinWithSep] at ih ⊢
      rw [← List.append_assoc, ← ih]

/-! ### Handler lemmas -/

/-- On a 2xx service response whose synthesized result is not JSON `null`,
the handler returns 200 with that result and the Exchange row is persisted
exactly when the insert succeeds. Shared helper for the claim theorems
below. -/
theorem analyzeDocument_ok (chunks : List Chunk) (question aiResponse : List Char)
    (status : Nat) (parsed : Option Json) (ins : InsertOutcome)
    (hok : statusOk status = true)
    (hnn : resultIsNull (synthesize parsed aiResponse (rankChunks chunks question))
      = false) :
    analyzeDocument chunks question (.response status aiResponse parsed) ins
      = ⟨200, .success (synthesize parsed aiResponse (rankChunks chunks question)),
          decide (ins = InsertOutcome.ok)⟩ := by
  simp [analyzeDocument, hok, hnn]

/-- On a 2xx service response whose body parses to JSON `null`, reading
`result.answer` while building the insert payload throws: the outer catch
returns a 500 and no Exchange row is persisted. Shared helper for the claim
theorems below. -/
theorem analyzeDocument_nullBody (chunks : List Chunk)
    (question aiResponse : List Char) (status : Nat) (ins : InsertOutcome)
    (hok : statusOk status = true) :
    analyzeDocument chunks question (.response status aiResponse (some Json.null)) ins
      = ⟨500, .error nullDerefErrorMsg, false⟩ := by
  simp [analyzeDocument, hok, synthesize, resultIsNull]

/-- A synthesized structured result is null exactly for the null JSON
value. -/
theorem resultIsNull_structured (j : Json) (h : j ≠ Json.null) :
    resultIsNull (SynthResult.structured j) = false := by
  cases j <;> first | exact absurd rfl h | rfl

/-- C2: when the reasoning-service body fails to parse as JSON, the handler
returns the fallback record: answer = raw text, evidence = the ranked chunk
texts (at most 3, each truncated to a bounded preview length),
confidence_score = 75, reasoning = the generic note. -/
theorem fallback_shape (chunks : List Chunk) (question aiResponse : List Char)
    (status : Nat) (ins : InsertOutcome) (hok : statusOk status = true) :
    analyzeDocument chunks question (.response status aiResponse none) ins
      = ⟨200, .success (.fallback aiResponse
          ((rankChunks chunks question).map
            (fun c => c.text.take previewLen ++ ellipsis))
          75 fallbackReasoning), decide (ins = InsertOutcome.ok)⟩
    ∧ ((rankChunks chunks question).map
        (fun c => c.text.take previewLen ++ ellipsis)).length ≤ 3
    ∧ ∀ e ∈ (rankChunks chunks question).map
        (fun c => c.text.take previewLen ++ ellipsis), e.length ≤ previewLen + 3 := by
  refine ⟨?_, ?_, ?_⟩
  · simp [analyzeDocument, hok, synthesize, resultIsNull]
  · rw [List.length_map, rankChunks_characterization, List.length_map]
    exact List.length_take_le _ _
  · intro e he
    rcases List.mem_map.mp he with ⟨c, _, hc⟩
    rw [← hc, List.length_append]
    have h1 : (c.text.take previewLen).length ≤ previewLen := by
      simp
    have h2 : ellipsis.length = 3 := rfl
    omega

/-- Witness for `fallback_shape` at a concrete 200 response. -/
theorem fallback_shape_witness :
    statusOk 200 = true
    ∧ (analyzeDocument demoChunks demoQuestion
          (.response 200 "plain prose".toList none) InsertOutcome.ok
        = ⟨200, .success (.fallback "plain prose".toList
            ((rankChunks demoChunks demoQuestion).map
              (fun c => c.text.take previewLen ++ ellipsis))
            75 fallbackReasoning), decide (InsertOutcome.ok = InsertOutcome.ok)⟩
      ∧ ((rankChunks demoChunks demoQuestion).map
          (fun c => c.text.take previewLen ++ ellipsis)).length ≤ 3
      ∧ ∀ e ∈ (rankChunks demoChunks demoQuestion).map
          (fun c => c.text.take previewLen ++ ellipsis), e.length ≤ previewLen + 3) :=
  ⟨by decide,
   fallback_shape demoChunks demoQuestion "plain prose".toList 200
     InsertOutcome.ok (by decide)⟩

/-- C3: when the reasoning capability is unreachable (the fetch rejects) or
returns a non-2xx status, the handler fails with a 500 error response and no
Exchange record is persisted. -/
theorem service_failure_no_exchange (chunks : List Chunk)
    (question errMsg aiResponse : List Char) (status : Nat)
    (parsed : Option Json) (ins : InsertOutcome)
    (hbad : statusOk status = false) :
    analyzeDocument chunks question (.unreachable errMsg) ins
      = ⟨500, .error errMsg, false⟩
    ∧ analyzeDocument chunks question (.response status aiResponse parsed) ins
      = ⟨500, .error aiAnalysisFailedMsg, false⟩ := by
  refine ⟨rfl, ?_⟩
  simp [analyzeDocument, hbad]

/-- Witness for `service_failure_no_exchange` at a 502 status. -/
theorem service_failure_no_exchange_witness :
    statusOk 502 = false
    ∧ (analyzeDocument demoChunks demoQuestion
          (.unreachable "fetch failed".toList) InsertOutcome.ok
        = ⟨500, .error "fetch failed".toList, false⟩
      ∧ analyzeDocument demoChunks demoQuestion
          (.response 502 "Bad Gateway".toList none) InsertOutcome.ok
        = ⟨500, .error aiAnalysisFailedMsg, false⟩) :=
  ⟨by decide,
   service_failure_no_exchange demoChunks demoQuestion "fetch failed".toList
     "Bad Gateway".toList 502 none InsertOutcome.ok (by decide)⟩

/-- C4 counterexample: the body `\x7b\x7d` parses as the JSON object with no
fields — it is not of the spec's Structured shape — yet the handler accepts it
as-is instead of taking the fallback path. -/
theorem structured_acceptance_counterexample :
    analyzeDocument demoChunks demoQuestion
        (.response 200 "\x7b\x7d".toList (some (Json.obj []))) InsertOutcome.ok
      = ⟨200, .success (.structured (Json.obj [])), true⟩
    ∧ specStructuredShape (Json.obj []) = false := by
  refine ⟨?_, rfl⟩
  rw [analyzeDocument_ok demoChunks demoQuestion "\x7b\x7d".toList 200
    (some (Json.obj [])) InsertOutcome.ok (by decide) rfl]
  rfl

/-- C4 amended: a reasoning-service response is accepted as-is exactly when
its body parses as a non-null JSON value — of the Structured shape or not, the
code validates nothing beyond the parse; a body that fails JSON parsing goes
to the fallback path, and the one parsed value never accepted is JSON `null`,
whose acceptance crashes on `result.answer` instead. -/
theorem structured_acceptance_iff (chunks : List Chunk)
    (question aiResponse : List Char) (status : Nat) (parsed : Option Json)
    (ins : InsertOutcome) (j : Json) (hok : statusOk status = true) :
    (analyzeDocument chunks question (.response status aiResponse parsed) ins).body
        = .success (.structured j)
      ↔ (parsed = some j ∧ j ≠ Json.null) := by
  cases parsed with
  | none =>
    rw [analyzeDocument_ok chunks question aiResponse status none ins hok rfl]
    simp [synthesize]
  | some j2 =>
    by_cases hn : j2 = Json.null
    · subst hn
      rw [analyzeDocument_nullBody chunks question aiResponse status ins hok]
      constructor
      · intro h
        exact ResponseBody.noConfusion h
      · rintro ⟨h1, h2⟩
        exact absurd (Option.some.inj h1).symm h2
    · rw [analyzeDocument_ok chunks question aiResponse status (some j2) ins hok
        (by simpa [synthesize] using resultIsNull_structured j2 hn)]
      simp only [ResponseBody.success.injEq, synthesize, SynthResult.structured.injEq,
        Option.some.injEq]
      constructor
      · intro h
        subst h
        exact ⟨rfl, hn⟩
      · intro h
        exact h.1

/-- Witness for `structured_acceptance_iff` at a concrete parsed body. -/
theorem structured_acceptance_iff_witness :
    statusOk 200 = true
    ∧ ((analyzeDocument demoChunks demoQuestion
          (.response 200 "\x22ok\x22".toList (some (Json.str "ok".toList)))
          InsertOutcome.ok).body
        = .success (.structured (Json.str "ok".toList))
      ↔ (some (Json.str "ok".toList) = some (Json.str "ok".toList)
         ∧ Json.str "ok".toList ≠ Json.null)) :=
  ⟨by decide,
   structured_acceptance_iff demoChunks demoQuestion "\x22ok\x22".toList 200
     (some (Json.str "ok".toList)) InsertOutcome.ok (Json.str "ok".toList)
     (by decide)⟩

/-- C6: when no chunk matches the question, the ranked sequence is empty, the
assembled context is the empty string, the reasoning request is still formed,
and the synthesis step still proceeds without raising: for every service
reply it yields a structured- or fallback-shaped result, and the handler
returns it with a 200 whenever the later Exchange-payload construction does
not crash on a JSON-null body (a failure mode independent of the empty
context). -/
theorem empty_context_tolerance (chunks : List Chunk) (question : List Char)
    (hnone : ∀ c ∈ chunks, matchesQuestion question c = false) :
    rankChunks chunks question = []
    ∧ assembleContext (rankChunks chunks question) = []
    ∧ requestMessage (assembleContext (rankChunks chunks question)) question
        = "Context from document:\n".toList ++ "\n\nQuestion: ".toList ++ question
    ∧ (∀ (parsed : Option Json) (aiResponse : List Char),
        (∃ jj, synthesize parsed aiResponse (rankChunks chunks question)
          = .structured jj)
        ∨ ∃ a ev cs re, synthesize parsed aiResponse (rankChunks chunks question)
          = .fallback a ev cs re)
    ∧ ∀ (status : Nat) (aiResponse : List Char) (parsed : Option Json)
        (ins : InsertOutcome), statusOk status = true →
        resultIsNull (synthesize parsed aiResponse (rankChunks chunks question))
          = false →
        analyzeDocument chunks question (.response status aiResponse parsed) ins
          = ⟨200, .success (synthesize parsed aiResponse (rankChunks chunks question)),
              decide (ins = InsertOutcome.ok)⟩ := by
  have hrank : rankChunks chunks question = [] := by
    rw [rankChunks_characterization]
    have hfil : chunks.filter (matchesQuestion question) = [] := by
      apply List.filter_eq_nil_iff.mpr
      intro c hc
      simp [hnone c hc]
    rw [hfil]
    rfl
  refine ⟨hrank, ?_, ?_, ?_, ?_⟩
  · rw [hrank]; rfl
  · rw [hrank]
    simp [requestMessage, assembleContext, List.intercalate]
  · intro parsed aiResponse
    cases parsed with
    | some j => exact Or.inl ⟨j, rfl⟩
    | none => exact Or.inr ⟨_, _, _, _, rfl⟩
  · intro status aiResponse parsed ins hok hnn
    exact analyzeDocument_ok chunks question aiResponse status parsed ins hok hnn

/-- Witness for `empty_context_tolerance`: the demo document matched against a
question none of its chunks contain. -/
theorem empty_context_tolerance_witness :
    (∀ c ∈ demoChunks, matchesQuestion "galaxy".toList c = false)
    ∧ (rankChunks demoChunks "galaxy".toList = []
      ∧ assembleContext (rankChunks demoChunks "galaxy".toList) = []
      ∧ requestMessage (assembleContext (rankChunks demoChunks "galaxy".toList))
          "galaxy".toList
          = "Context from document:\n".toList ++ "\n\nQuestion: ".toList
            ++ "galaxy".toList
      ∧ (∀ (parsed : Option Json) (aiResponse : List Char),
          (∃ jj, synthesize parsed aiResponse (rankChunks demoChunks "galaxy".toList)
            = .structured jj)
          ∨ ∃ a ev cs re,
              synthesize parsed aiResponse (rankChunks demoChunks "galaxy".toList)
                = .fallback a ev cs re)
      ∧ ∀ (status : Nat) (aiResponse : List Char) (parsed : Option Json)
          (ins : InsertOutcome), statusOk status = true →
          resultIsNull (synthesize parsed aiResponse
            (rankChunks demoChunks "galaxy".toList)) = false →
          analyzeDocument demoChunks "galaxy".toList
              (.response status aiResponse parsed) ins
            = ⟨200, .success (synthesize parsed aiResponse
                  (rankChunks demoChunks "galaxy".toList)),
                decide (ins = InsertOutcome.ok)⟩) :=
  ⟨by decide, empty_context_tolerance demoChunks "galaxy".toList (by decide)⟩

/-- C8 counterexample: with a successful analysis and a failing Exchange
insert, the handler's status and body are identical to the insert-success run
— the persistence failure is not reported to the caller, only silently
dropped (the answer is still returned). -/
theorem persistence_failure_unreported :
    (analyzeDocument demoChunks demoQuestion
        (.response 200 "plain prose".toList none) InsertOutcome.failed).status = 200
    ∧ (analyzeDocument demoChunks demoQuestion
        (.response 200 "plain prose".toList none) InsertOutcome.failed).body
      = (analyzeDocument demoChunks demoQuestion
          (.response 200 "plain prose".toList none) InsertOutcome.ok).body
    ∧ (analyzeDocument demoChunks demoQuestion
        (.response 200 "plain prose".toList none)
        InsertOutcome.failed).exchangePersisted = false := by
  rw [analyzeDocument_ok demoChunks demoQuestion "plain prose".toList 200 none
    InsertOutcome.failed (by decide) rfl,
    analyzeDocument_ok demoChunks demoQuestion "plain prose".toList 200 none
    InsertOutcome.ok (by decide) rfl]
  exact ⟨rfl, rfl, rfl⟩

/-- C8 amended: a failing Exchange insert is silently ignored — the handler's
status and body do not depend on the insert outcome, so a persistence failure
never converts a successful analysis into an error (but it is not reported to
the caller either). -/
theorem persistence_failure_ignored (chunks : List Chunk)
    (question : List Char) (service : ServiceOutcome) :
    (analyzeDocument chunks question service InsertOutcome.failed).status
      = (analyzeDocument chunks question service InsertOutcome.ok).status
    ∧ (analyzeDocument chunks question service InsertOutcome.failed).body
      = (analyzeDocument chunks question service InsertOutcome.ok).body := by
  cases service with
  | unreachable errMsg => exact ⟨rfl, rfl⟩
  | response status aiResponse parsed =>
    cases h : statusOk status with
    | false => simp [analyzeDocument, h]
    | true =>
      cases hr : resultIsNull (synthesize parsed aiResponse (rankChunks chunks question)) <;>
        simp [analyzeDocument, h, hr]

/-- C10: the query interface never issues an analyze request for an empty or
whitespace-only question — submitting returns without invoking the operation,
and the submit control is disabled. -/
theorem empty_question_not_submitted (question : List Char)
    (htrim : trimStr question = []) :
    handleSubmitInvokes question = false
    ∧ ∀ isLoading, submitDisabled isLoading question = true := by
  constructor
  · simp [handleSubmitInvokes, htrim]
  · intro isLoading
    simp [submitDisabled, htrim]

/-- Witness for `empty_question_not_submitted` on a whitespace-only
question. -/
theorem empty_question_not_submitted_witness :
    trimStr "   ".toList = []
    ∧ (handleSubmitInvokes "   ".toList = false
      ∧ ∀ isLoading, submitDisabled isLoading "   ".toList = true) :=
  ⟨by decide, empty_question_not_submitted "   ".toList (by decide)⟩

end PolicyScribe
